import Mathlib

/- Formal model of vulture's configuration module (vulture/config.py):
   option dictionaries, input/output validation, CLI/TOML merging and
   gitignore-based defaulting of the exclude patterns. Python dicts are
   modelled as insertion-ordered association lists with unique keys. -/

namespace VultureConfig

/-- Python runtime types relevant to configuration values. The source
compares `type(value) is type(DEFAULTS[key])`, which distinguishes
`bool` from `int` (unlike `isinstance`), as the code comment notes. -/
inductive PyType
  | pInt
  | pBool
  | pList
  | pStr
deriving DecidableEq, Repr

/-- A configuration value as it occurs in the option dictionaries: an int,
a bool, a list of strings, or a string. TOML, argparse and the defaults
only ever put these shapes into the `tool.vulture` / CLI dictionaries. -/
inductive CVal
  | vInt (n : Int)
  | vBool (b : Bool)
  | vList (xs : List String)
  | vStr (s : String)
deriving DecidableEq, Repr

/-- The Python runtime type of a value, as `type(value)` sees it. -/
def CVal.pyType : CVal → PyType
  | .vInt _ => .pInt
  | .vBool _ => .pBool
  | .vList _ => .pList
  | .vStr _ => .pStr

/-- Python falsiness: `not value` in the source is `value.isFalsy`. -/
def CVal.isFalsy : CVal → Bool
  | .vInt n => n == 0
  | .vBool b => !b
  | .vList xs => xs.isEmpty
  | .vStr s => s.isEmpty

/-- A Python dict with string keys, modelled as an insertion-ordered
association list (first entry with a key wins on lookup). -/
abbrev ConfigDict := List (String × CVal)

/-- Dict lookup `d[k]` / `d.get(k)`. -/
def dictLookup : ConfigDict → String → Option CVal
  | [], _ => none
  | (k0, v0) :: rest, k => if k0 = k then some v0 else dictLookup rest k

/-- Dict assignment `d[k] = v`: replace the value in place if the key is
present (Python keeps the key position), otherwise append. -/
def dictSet : ConfigDict → String → CVal → ConfigDict
  | [], k, v => [(k, v)]
  | (k0, v0) :: rest, k, v =>
    if k0 = k then (k0, v) :: rest else (k0, v0) :: dictSet rest k v

/-- `d.update(e)`: set every entry of `e` in `d`, in order. -/
def dictUpdate (d e : ConfigDict) : ConfigDict :=
  e.foldl (fun acc kv => dictSet acc kv.1 kv.2) d

/-- `d.setdefault(k, v)`: insert `(k, v)` only when `k` is absent. -/
def dictSetdefault : ConfigDict → String → CVal → ConfigDict
  | [], k, v => [(k, v)]
  | (k0, v0) :: rest, k, v =>
    if k0 = k then (k0, v0) :: rest else (k0, v0) :: dictSetdefault rest k v

/-- Possible configuration options and their respective defaults
(config.py, `DEFAULTS`). -/
def DEFAULTS : ConfigDict :=
  [("min_confidence", .vInt 0),
   ("paths", .vList []),
   ("exclude", .vList []),
   ("ignore_decorators", .vList []),
   ("ignore_names", .vList []),
   ("make_whitelist", .vBool false),
   ("sort_by_size", .vBool false),
   ("verbose", .vBool false)]

/-- The Python name of a type, `type(x).__name__`, used in error texts. -/
def PyType.name : PyType → String
  | .pInt => "int"
  | .pBool => "bool"
  | .pList => "list"
  | .pStr => "str"

/-- The errors the configuration layer can produce. The first three are
`InputError` values raised by config.py; the last two model Python
exceptions (`KeyError` from `config[missing]`, `TypeError` from iterating
a non-list) that are not `InputError` and turn out to be unreachable
inside `make_config`. -/
inductive ConfigError
  | unknownKey (key : String)
  | wrongType (key : String) (expected : PyType)
  | missingPaths
  | pyKeyError (key : String)
  | pyTypeError
deriving DecidableEq, Repr

/-- Which errors are `InputError`s (as opposed to modelled Python
exceptions). -/
def ConfigError.isInputError : ConfigError → Bool
  | .unknownKey _ => true
  | .wrongType _ _ => true
  | .missingPaths => true
  | .pyKeyError _ => false
  | .pyTypeError => false

/-- The message carried by the corresponding `InputError` in config.py. -/
def ConfigError.message : ConfigError → String
  | .unknownKey key => "Unknown configuration key: " ++ key
  | .wrongType key expected => "Data type for " ++ key ++ " must be " ++ expected.name
  | .missingPaths => "Please pass at least one file or directory"
  | .pyKeyError key => "KeyError: " ++ key
  | .pyTypeError => "TypeError"

/-- config.py `_check_input_config(data)`: for each key/value of `data`,
raise `InputError` if the key is not in `DEFAULTS` or the value's runtime
type differs from the type of the default. -/
def check_input_config : ConfigDict → Except ConfigError Unit
  | [] => .ok ()
  | (key, value) :: rest =>
    match dictLookup DEFAULTS key with
    | none => .error (.unknownKey key)
    | some d =>
      if value.pyType = d.pyType then check_input_config rest
      else .error (.wrongType key d.pyType)

/-- config.py `_check_output_config(config)`: raise `InputError` when
`config["paths"]` is falsy. A missing `"paths"` key would be a Python
`KeyError`; it never occurs in `make_config`, which fills defaults first. -/
def check_output_config (config : ConfigDict) : Except ConfigError Unit :=
  match dictLookup config "paths" with
  | none => .error (.pyKeyError "paths")
  | some v =>
    if v.isFalsy then .error .missingPaths else .ok ()

/-- config.py `_parse_toml(infile)`: `tomllib.load` and the extraction
of `data["tool"]["vulture"]` are external parsing; the model receives the
resulting `[tool.vulture]` table directly, checks it and returns it. -/
def parse_toml (settings : ConfigDict) : Except ConfigError ConfigDict :=
  match check_input_config settings with
  | .error e => .error e
  | .ok _ => .ok settings

/-- The argparse namespace produced by `_parse_args`'s parser: one field
per registered argument, `none` standing for the `missing` sentinel that
marks options absent from the command line. argparse guarantees the
runtime type of each present value (`csv` yields string lists,
`store_true` yields bools, `type=int` yields ints). -/
structure CliNamespace where
  paths : Option (List String) := none
  exclude : Option (List String) := none
  ignore_decorators : Option (List String) := none
  ignore_names : Option (List String) := none
  make_whitelist : Option Bool := none
  min_confidence : Option Int := none
  sort_by_size : Option Bool := none
  verbose : Option Bool := none
deriving Repr

/-- One entry of the `cli_args` dict comprehension: present values keep
their key, `missing` ones are dropped. -/
def optEntry (k : String) (v : Option CVal) : ConfigDict :=
  match v with
  | some v => [(k, v)]
  | none => []

/-- The dict `cli_args = {key: value for key, value in vars(namespace).items()
if value is not missing}`, in the parser's registration order. -/
def CliNamespace.toDict (ns : CliNamespace) : ConfigDict :=
  optEntry "paths" (ns.paths.map .vList) ++
  optEntry "exclude" (ns.exclude.map .vList) ++
  optEntry "ignore_decorators" (ns.ignore_decorators.map .vList) ++
  optEntry "ignore_names" (ns.ignore_names.map .vList) ++
  optEntry "make_whitelist" (ns.make_whitelist.map .vBool) ++
  optEntry "min_confidence" (ns.min_confidence.map .vInt) ++
  optEntry "sort_by_size" (ns.sort_by_size.map .vBool) ++
  optEntry "verbose" (ns.verbose.map .vBool)

/-- config.py `_parse_args(args)`, modelled from the parsed namespace on:
build `cli_args` from the non-missing namespace attributes, check it, and
return it. (argparse itself rejects unknown flags before this point, so
every key of the namespace is a `DEFAULTS` key.) -/
def parse_args (ns : CliNamespace) : Except ConfigError ConfigDict :=
  match check_input_config ns.toDict with
  | .error e => .error e
  | .ok _ => .ok ns.toDict

/-- An absolute, resolved path, as its list of components below the
filesystem root (`pathlib.Path.parts` without the leading root entry). -/
abbrev FPath := List String

/-- The filesystem facts `find_gitignore` and `_parse_gitignore_excludes`
consult: the working directory, `Path(s).resolve()`, `is_dir`, `is_file`,
and, for a gitignore file, the `pattern.regex` of each of its pathspec
patterns, in file order (regexes stand in for compiled patterns). -/
structure FileSystem where
  cwd : FPath
  resolve : String → FPath
  isDir : FPath → Bool
  isFile : FPath → Bool
  gitignoreRegexes : FPath → List String

/-- `pathlib.Path.parents` of a path: all proper ancestors — the proper
prefixes of the component list — nearest first, exactly as pathlib
yields them (`/a/b/c` gives `/a/b`, `/a`, `/`). The order is
load-bearing: the gitignore walk below takes the first hit. -/
def parentsOf (p : FPath) : List FPath :=
  (List.range p.length).reverse.map (fun n => p.take n)

/-- `list(path.parents) + ([path] if path.is_dir() else [])` from
`find_gitignore`: the ancestors of `path`, plus `path` itself when it is
a directory. -/
def pathParents (fs : FileSystem) (p : FPath) : List FPath :=
  parentsOf p ++ (if fs.isDir p then [p] else [])

/-- `set.intersection(*(set(parents) for parents in path_parents))`:
elements of the first list that occur in every other list. -/
def intersectAll : List (List FPath) → List FPath
  | [] => []
  | x :: xs => x.filter (fun p => xs.all (fun l => decide (p ∈ l)))

/-- Python tuple comparison on `path.parts` (the `key` of the `max` call
in `find_gitignore`): lexicographic on the component lists. -/
def partsLt : FPath → FPath → Bool
  | [], [] => false
  | [], _ :: _ => true
  | _ :: _, [] => false
  | a :: as, b :: bs => if a = b then partsLt as bs else decide (a < b)

/-- `max(candidates, key=lambda path: path.parts)`. Python's `max` over a
set visits the elements in an unspecified order, but the maximum under the
key is unique here (the candidates form a prefix chain), so a left fold
over our list order computes the same path. `none` corresponds to the
`ValueError` Python's `max` raises on an empty set, which would need the
filesystem root not to be a directory. -/
def maxByParts : List FPath → Option FPath
  | [] => none
  | x :: xs => some (xs.foldl (fun acc p => if partsLt acc p then p else acc) x)

/-- config.py `find_gitignore(paths)`: resolve the paths (the current
working directory when none are given), intersect their ancestor sets,
take the deepest element as the common base, and return the first
`<dir>/.gitignore` regular file for `dir` running from the common base
up to the root, nearest directory first as in the source's
`(common_base, *common_base.parents)`. `make_config` always passes a
list of strings, so the str/Path input sugar of the source does not
arise. -/
def find_gitignore (fs : FileSystem) (paths : List String) : Option FPath :=
  let rpaths : List FPath :=
    if paths.isEmpty then [fs.cwd] else paths.map fs.resolve
  let path_parents : List (List FPath) := rpaths.map (pathParents fs)
  match maxByParts (intersectAll path_parents) with
  | none => none
  | some common_base =>
    (common_base :: parentsOf common_base).findSome? (fun path =>
      if fs.isFile (path ++ [".gitignore"]) then some (path ++ [".gitignore"])
      else none)

/-- config.py `_parse_gitignore_excludes(gitignore_path)`:
`list({pattern.regex for pattern in spec.patterns})`. The Python set
comprehension deduplicates (compiled regexes of equal gitignore patterns
are shared via the `re.compile` cache) and yields an unspecified order;
the model keeps first occurrences in file order. -/
def parse_gitignore_excludes (fs : FileSystem) (gitignore_path : FPath) : List String :=
  (fs.gitignoreRegexes gitignore_path).dedup

/-- Modelled from the spec: `fnmatch_to_regex` lives in vulture/utils.py,
which is not under src/. Per the spec, the Glob Matcher "compiles
user-supplied shell-style patterns (with implicit `*pattern*` wrapping
when no wildcard is present) into anchored regular expressions". The
model wraps wildcard-free patterns and renders a simple anchored
translation; only the wrapping behaviour and injectivity of the rendering
matter to the configuration layer. -/
def fnmatch_to_regex (pattern : String) : String :=
  let hasWildcard := pattern.toList.any (fun c => c = '*' || c = '?' || c = '[')
  let p := if hasWildcard then pattern else "*" ++ pattern ++ "*"
  let tr := fun (c : Char) =>
    if c = '*' then ".*"
    else if c = '?' then "."
    else if c.isAlphanum then String.singleton c
    else "\\" ++ String.singleton c
  "(?s:" ++ String.join (p.toList.map tr) ++ ")\\Z"

/-- The `config["paths"]` argument handed to `find_gitignore`: always a
string list in reachable states (a string would be wrapped by the input
sugar; other types would crash `Path()` and are unreachable because the
input check passed). -/
def pathStrings : Option CVal → List String
  | some (.vList xs) => xs
  | some (.vStr s) => [s]
  | _ => []

/-- The exclude-defaulting block of `make_config` (lines 276-287): when
`config["exclude"]` is falsy, fill it from the closest gitignore (or
leave it and print a warning when there is none); otherwise translate the
explicit fnmatch patterns to regexes. A missing key or a truthy non-list
would be a Python `KeyError`/`TypeError`; both are unreachable after the
defaults are filled in. -/
def excludeStep (fs : FileSystem) (config : ConfigDict) : Except ConfigError ConfigDict :=
  match dictLookup config "exclude" with
  | none => .error (.pyKeyError "exclude")
  | some ev =>
    if ev.isFalsy then
      match find_gitignore fs (pathStrings (dictLookup config "paths")) with
      | some gitignore_path =>
        .ok (dictSet config "exclude" (.vList (parse_gitignore_excludes fs gitignore_path)))
      | none => .ok config
    else
      match ev with
      | .vList ps => .ok (dictSet config "exclude" (.vList (ps.map fnmatch_to_regex)))
      | _ => .error .pyTypeError

/-- The `for key, value in DEFAULTS.items(): config.setdefault(key, value)`
loop of `make_config`. -/
def applyDefaults (config : ConfigDict) : ConfigDict :=
  DEFAULTS.foldl (fun c kv => dictSetdefault c kv.1 kv.2) config

/-- config.py `make_config(argv, tomlfile)`: parse the CLI namespace,
parse the TOML settings (`none` models the absence of a `pyproject.toml`
in the working directory, yielding `config = {}`), overwrite TOML options
with CLI options, fill in the defaults, apply the exclude/gitignore
defaulting, run the output sanity check and return the config.
Sequencing with `bind` models Python's exception propagation: a raised
`InputError` aborts the remaining steps. The verbose `print` of the
detected TOML path is output only. -/
def make_config (argv : CliNamespace) (tomlfile : Option ConfigDict)
    (fs : FileSystem) : Except ConfigError ConfigDict :=
  (parse_args argv).bind (fun cli_config =>
    (match tomlfile with
     | some f => parse_toml f
     | none => .ok ([] : ConfigDict)).bind (fun config =>
      (excludeStep fs (applyDefaults (dictUpdate config cli_config))).bind
        (fun config =>
          (check_output_config config).map (fun _ => config))))

/-- Whether a configuration-layer call raised (any) exception. -/
def isError {α : Type} : Except ConfigError α → Bool
  | .error _ => true
  | .ok _ => false

/-- Every value of the dict is well typed for its (recognized) key: the
property `_check_input_config` enforces. -/
def WellTyped (d : ConfigDict) : Prop :=
  ∀ kv ∈ d, ∃ dv, dictLookup DEFAULTS kv.1 = some dv ∧ kv.2.pyType = dv.pyType

/-- The merged configuration of `make_config` before the exclude
defaulting: TOML settings (empty when there is no TOML file) overwritten
by CLI options, with the `DEFAULTS` filled in for missing keys. -/
def mergedConfig (ns : CliNamespace) (t : Option ConfigDict) : ConfigDict :=
  applyDefaults (dictUpdate (t.getD []) ns.toDict)

/-- Modelled from the claim wording: `p` is a common ancestor of the
resolved paths when it is a proper ancestor of each path, or the path
itself for a directory. -/
def isCommonAncestor (fs : FileSystem) (rpaths : List FPath) (p : FPath) : Bool :=
  rpaths.all (fun q => decide (p ∈ parentsOf q) || (decide (p = q) && fs.isDir q))

/-- The maximum-length element of a list of paths (leftmost on ties). -/
def maxByLen : List FPath → Option FPath
  | [] => none
  | x :: xs => some (xs.foldl (fun acc p => if acc.length < p.length then p else acc) x)

/-- Modelled from the claim wording for `find_gitignore`: the
`.gitignore` file of the closest directory at or above the deepest
(longest) common ancestor of the given paths. Every common ancestor lies
on the ancestor chain of the first path, so the candidates are drawn
from there; the closest directory at or above the base is the deepest
(longest) gitignore-bearing directory on the base's ancestor-or-self
chain, picked here by maximal length rather than by walk order. -/
def spec_find_gitignore (fs : FileSystem) (paths : List String) : Option FPath :=
  let rpaths : List FPath :=
    if paths.isEmpty then [fs.cwd] else paths.map fs.resolve
  let candidates : List FPath :=
    match rpaths with
    | [] => []
    | q :: _ => (pathParents fs q).filter (isCommonAncestor fs rpaths)
  match maxByLen candidates with
  | none => none
  | some base =>
    (maxByLen ((base :: parentsOf base).filter
      (fun dir => fs.isFile (dir ++ [".gitignore"])))).map
      (fun dir => dir ++ [".gitignore"])

/-- A concrete filesystem for witnesses: everything lives under `repo/`,
nothing is a directory, and `repo/.gitignore` is a file whose patterns
compile to the regexes giA, giA, giB (one duplicate). -/
def sampleFs : FileSystem where
  cwd := ["repo"]
  resolve := fun s => ["repo", s]
  isDir := fun _ => false
  isFile := fun p => p == ["repo", ".gitignore"]
  gitignoreRegexes := fun _ => ["giA", "giA", "giB"]

/-- The config `make_config` returns on `sampleFs` for the CLI input
`vulture p` with an empty TOML table. -/
def sampleRun : ConfigDict :=
  [("paths", .vList ["p"]),
   ("min_confidence", .vInt 0),
   ("exclude", .vList ["giA", "giB"]),
   ("ignore_decorators", .vList []),
   ("ignore_names", .vList []),
   ("make_whitelist", .vBool false),
   ("sort_by_size", .vBool false),
   ("verbose", .vBool false)]

/-- The config `make_config` returns on `sampleFs` for the CLI input
`vulture --min-confidence=200 p` with an empty TOML table. -/
def c4run : ConfigDict :=
  [("paths", .vList ["p"]),
   ("min_confidence", .vInt 200),
   ("exclude", .vList ["giA", "giB"]),
   ("ignore_decorators", .vList []),
   ("ignore_names", .vList []),
   ("make_whitelist", .vBool false),
   ("sort_by_size", .vBool false),
   ("verbose", .vBool false)]

/-- The config `make_config` returns on `sampleFs` for the CLI input
`vulture --min-confidence=20 cli_path` merged with the TOML table
`min_confidence = 10, verbose = true`. -/
def mergeRun : ConfigDict :=
  [("min_confidence", .vInt 20),
   ("verbose", .vBool true),
   ("paths", .vList ["cli_path"]),
   ("exclude", .vList ["giA", "giB"]),
   ("ignore_decorators", .vList []),
   ("ignore_names", .vList []),
   ("make_whitelist", .vBool false),
   ("sort_by_size", .vBool false)]

/-- Looking up the key just set yields the new value; other keys are
unaffected. -/
theorem dictLookup_dictSet (d : ConfigDict) (k : String) (v : CVal) (k' : String) :
    dictLookup (dictSet d k v) k' = if k = k' then some v else dictLookup d k' := by
  induction d with
  | nil => simp [dictSet, dictLookup]
  | cons kv rest ih =>
    obtain ⟨k0, v0⟩ := kv
    by_cases h0 : k0 = k
    · subst h0
      by_cases h1 : k0 = k'
      · subst h1; simp [dictSet, dictLookup]
      · simp [dictSet, dictLookup, h1, Ne.symm h1]
    · by_cases h1 : k0 = k'
      · subst h1
        have : ¬ k = k0 := fun h => h0 h.symm
        simp [dictSet, dictLookup, h0, this]
      · simp [dictSet, dictLookup, h0, h1, ih]

/-- `setdefault` keeps an existing value and inserts the default
otherwise; other keys are unaffected. -/
theorem dictLookup_dictSetdefault (d : ConfigDict) (k : String) (v : CVal) (k' : String) :
    dictLookup (dictSetdefault d k v) k'
      = if k = k' then (dictLookup d k).or (some v) else dictLookup d k' := by
  induction d with
  | nil => simp [dictSetdefault, dictLookup]
  | cons kv rest ih =>
    obtain ⟨k0, v0⟩ := kv
    by_cases h0 : k0 = k
    · subst h0
      by_cases h1 : k0 = k'
      · subst h1; simp [dictSetdefault, dictLookup]
      · simp [dictSetdefault, dictLookup, h1, Ne.symm h1]
    · by_cases h1 : k0 = k'
      · subst h1
        have : ¬ k = k0 := fun h => h0 h.symm
        simp [dictSetdefault, dictLookup, h0, this]
      · simp [dictSetdefault, dictLookup, h0, h1, ih]

/-- A key that is absent from a dict looks up to `none`. -/
theorem dictLookup_eq_none_of_not_mem (e : ConfigDict) (k : String)
    (h : k ∉ e.map Prod.fst) : dictLookup e k = none := by
  induction e with
  | nil => rfl
  | cons kv rest ih =>
    simp only [List.map_cons, List.mem_cons, not_or] at h
    obtain ⟨k0, v0⟩ := kv
    have : k0 ≠ k := fun hh => h.1 hh.symm
    simp [dictLookup, this, ih h.2]

/-- `d.update(e)` for a duplicate-free `e` (all real dicts are): keys of
`e` win, keys absent from `e` keep their value from `d`. -/
theorem dictLookup_dictUpdate (e : ConfigDict) (d : ConfigDict) (k : String)
    (h : (e.map Prod.fst).Nodup) :
    dictLookup (dictUpdate d e) k = (dictLookup e k).or (dictLookup d k) := by
  induction e generalizing d with
  | nil => simp [dictUpdate, dictLookup]
  | cons kv rest ih =>
    obtain ⟨k0, v0⟩ := kv
    simp only [List.map_cons, List.nodup_cons] at h
    have step : dictUpdate d ((k0, v0) :: rest) = dictUpdate (dictSet d k0 v0) rest := rfl
    rw [step, ih (dictSet d k0 v0) h.2, dictLookup_dictSet]
    by_cases h0 : k0 = k
    · subst h0
      rw [dictLookup_eq_none_of_not_mem rest k0 h.1]
      simp [dictLookup]
    · simp [dictLookup, h0]

/-- Looking up after the `setdefault` loop: the dict's own value when
present, the default otherwise. -/
theorem dictLookup_foldSetdefault (ds : ConfigDict) (d : ConfigDict) (k : String) :
    dictLookup (ds.foldl (fun c kv => dictSetdefault c kv.1 kv.2) d) k
      = (dictLookup d k).or (dictLookup ds k) := by
  induction ds generalizing d with
  | nil => simp [dictLookup]
  | cons kv rest ih =>
    obtain ⟨k0, v0⟩ := kv
    simp only [List.foldl_cons]
    rw [ih (dictSetdefault d k0 v0), dictLookup_dictSetdefault]
    by_cases h0 : k0 = k
    · subst h0
      simp [dictLookup, Option.or_assoc]
    · simp [dictLookup, h0]

/-- `applyDefaults` in terms of lookups. -/
theorem dictLookup_applyDefaults (d : ConfigDict) (k : String) :
    dictLookup (applyDefaults d) k = (dictLookup d k).or (dictLookup DEFAULTS k) :=
  dictLookup_foldSetdefault DEFAULTS d k

/-- An entry of `optEntry k v` carries the key `k` and the present value. -/
theorem mem_optEntry {kv : String × CVal} {k : String} {v : Option CVal}
    (h : kv ∈ optEntry k v) : kv.1 = k ∧ v = some kv.2 := by
  cases v with
  | none => simp [optEntry] at h
  | some x =>
    simp [optEntry] at h
    subst h
    exact ⟨rfl, rfl⟩

/-- The keys of `optEntry` are drawn from the singleton of its key. -/
theorem optEntry_keys_sublist (k : String) (v : Option CVal) :
    ((optEntry k v).map Prod.fst).Sublist [k] := by
  cases v <;> simp [optEntry]

/-- The keys of the CLI dict appear in parser registration order. -/
theorem toDict_keys_sublist (ns : CliNamespace) :
    (ns.toDict.map Prod.fst).Sublist
      ["paths", "exclude", "ignore_decorators", "ignore_names",
       "make_whitelist", "min_confidence", "sort_by_size", "verbose"] := by
  have h8 := optEntry_keys_sublist "verbose" (ns.verbose.map .vBool)
  have h7 := (optEntry_keys_sublist "sort_by_size" (ns.sort_by_size.map .vBool)).append h8
  have h6 := (optEntry_keys_sublist "min_confidence" (ns.min_confidence.map .vInt)).append h7
  have h5 := (optEntry_keys_sublist "make_whitelist" (ns.make_whitelist.map .vBool)).append h6
  have h4 := (optEntry_keys_sublist "ignore_names" (ns.ignore_names.map .vList)).append h5
  have h3 := (optEntry_keys_sublist "ignore_decorators" (ns.ignore_decorators.map .vList)).append h4
  have h2 := (optEntry_keys_sublist "exclude" (ns.exclude.map .vList)).append h3
  have h1 := (optEntry_keys_sublist "paths" (ns.paths.map .vList)).append h2
  simpa [CliNamespace.toDict] using h1

/-- The CLI dict never contains a duplicate key. -/
theorem toDict_keys_nodup (ns : CliNamespace) : (ns.toDict.map Prod.fst).Nodup :=
  List.Nodup.sublist (toDict_keys_sublist ns) (by decide)

/-- Every entry the CLI parser can put into `cli_args` is a recognized
key with a value of the default's runtime type. -/
theorem toDict_welltyped (ns : CliNamespace) : WellTyped ns.toDict := by
  intro kv hm
  simp only [CliNamespace.toDict, List.mem_append] at hm
  rcases hm with (((((((h | h) | h) | h) | h) | h) | h) | h) <;>
    obtain ⟨h1, h2⟩ := mem_optEntry h
  · obtain ⟨xs, _, hx⟩ := Option.map_eq_some'.mp h2
    exact ⟨.vList [], by rw [h1]; decide, by rw [← hx]; rfl⟩
  · obtain ⟨xs, _, hx⟩ := Option.map_eq_some'.mp h2
    exact ⟨.vList [], by rw [h1]; decide, by rw [← hx]; rfl⟩
  · obtain ⟨xs, _, hx⟩ := Option.map_eq_some'.mp h2
    exact ⟨.vList [], by rw [h1]; decide, by rw [← hx]; rfl⟩
  · obtain ⟨xs, _, hx⟩ := Option.map_eq_some'.mp h2
    exact ⟨.vList [], by rw [h1]; decide, by rw [← hx]; rfl⟩
  · obtain ⟨b, _, hx⟩ := Option.map_eq_some'.mp h2
    exact ⟨.vBool false, by rw [h1]; decide, by rw [← hx]; rfl⟩
  · obtain ⟨n, _, hx⟩ := Option.map_eq_some'.mp h2
    exact ⟨.vInt 0, by rw [h1]; decide, by rw [← hx]; rfl⟩
  · obtain ⟨b, _, hx⟩ := Option.map_eq_some'.mp h2
    exact ⟨.vBool false, by rw [h1]; decide, by rw [← hx]; rfl⟩
  · obtain ⟨b, _, hx⟩ := Option.map_eq_some'.mp h2
    exact ⟨.vBool false, by rw [h1]; decide, by rw [← hx]; rfl⟩

/-- A successful lookup exhibits a dict entry. -/
theorem mem_of_dictLookup {d : ConfigDict} {k : String} {v : CVal}
    (h : dictLookup d k = some v) : (k, v) ∈ d := by
  induction d with
  | nil => simp [dictLookup] at h
  | cons kv rest ih =>
    obtain ⟨k0, v0⟩ := kv
    by_cases h0 : k0 = k
    · subst h0
      simp [dictLookup] at h
      subst h
      exact List.mem_cons_self _ _
    · simp [dictLookup, h0] at h
      exact List.mem_cons_of_mem _ (ih h)

/-- `_check_input_config` succeeds exactly on well-typed dicts of
recognized keys. -/
theorem check_input_ok_iff (data : ConfigDict) :
    check_input_config data = .ok () ↔ WellTyped data := by
  induction data with
  | nil => simp [check_input_config, WellTyped]
  | cons kv rest ih =>
    obtain ⟨k, v⟩ := kv
    cases hd : dictLookup DEFAULTS k with
    | none =>
      simp only [check_input_config, hd]
      constructor
      · intro h; exact absurd h (by simp)
      · intro h
        obtain ⟨dv, hdv, _⟩ := h (k, v) (List.mem_cons_self _ _)
        rw [hd] at hdv
        exact absurd hdv (by simp)
    | some d =>
      by_cases ht : v.pyType = d.pyType
      · simp only [check_input_config, hd, if_pos ht]
        rw [ih]
        constructor
        · intro h
          intro kv hm
          rcases List.mem_cons.mp hm with hh | hh
          · subst hh; exact ⟨d, hd, ht⟩
          · exact h kv hh
        · intro h kv hm
          exact h kv (List.mem_cons_of_mem _ hm)
      · simp only [check_input_config, hd, if_neg ht]
        constructor
        · intro h; exact absurd h (by simp)
        · intro h
          obtain ⟨dv, hdv, htv⟩ := h (k, v) (List.mem_cons_self _ _)
          rw [hd] at hdv
          cases hdv
          exact absurd htv ht

/-- Any error `_check_input_config` raises is an `InputError`. -/
theorem check_input_error_isInputError {data : ConfigDict} {e : ConfigError}
    (h : check_input_config data = .error e) : e.isInputError = true := by
  induction data with
  | nil => simp [check_input_config] at h
  | cons kv rest ih =>
    obtain ⟨k, v⟩ := kv
    cases hd : dictLookup DEFAULTS k with
    | none =>
      simp only [check_input_config, hd] at h
      cases h
      rfl
    | some d =>
      by_cases ht : v.pyType = d.pyType
      · simp only [check_input_config, hd, if_pos ht] at h
        exact ih h
      · simp only [check_input_config, hd, if_neg ht] at h
        cases h
        rfl

/-- A dict with an unrecognized key fails the input check. -/
theorem check_input_error_of_unknown {data : ConfigDict}
    (h : ∃ kv ∈ data, dictLookup DEFAULTS kv.1 = none) :
    isError (check_input_config data) = true := by
  cases hc : check_input_config data with
  | error e => rfl
  | ok u =>
    cases u
    obtain ⟨kv, hm, hnone⟩ := h
    obtain ⟨dv, hdv, _⟩ := (check_input_ok_iff data).mp hc kv hm
    rw [hnone] at hdv
    exact absurd hdv (by simp)

/-- On a dict whose keys are all recognized, the input check never
raises the unknown-key error. -/
theorem check_input_not_unknownKey {data : ConfigDict}
    (h : ∀ kv ∈ data, (dictLookup DEFAULTS kv.1).isSome = true) :
    ∀ k, check_input_config data ≠ .error (.unknownKey k) := by
  induction data with
  | nil => intro k; simp [check_input_config]
  | cons kv rest ih =>
    intro k
    obtain ⟨k0, v0⟩ := kv
    obtain ⟨d, hd⟩ := Option.isSome_iff_exists.mp (h (k0, v0) (List.mem_cons_self _ _))
    by_cases ht : v0.pyType = d.pyType
    · simp only [check_input_config, hd, if_pos ht]
      exact ih (fun kv hm => h kv (List.mem_cons_of_mem _ hm)) k
    · simp only [check_input_config, hd, if_neg ht]
      simp

/-- `_parse_args` always succeeds and returns the CLI dict: argparse
gives every present namespace value the expected runtime type. -/
theorem parse_args_ok (ns : CliNamespace) : parse_args ns = .ok ns.toDict := by
  unfold parse_args
  rw [(check_input_ok_iff ns.toDict).mpr (toDict_welltyped ns)]

/-- A value of runtime type `list` is a `vList`. -/
theorem CVal.eq_vList_of_pyType {v : CVal} (h : v.pyType = PyType.pList) :
    ∃ xs, v = .vList xs := by
  cases v <;> simp_all [CVal.pyType]

/-- Looking up the merged configuration: CLI wins, then TOML, then the
defaults. -/
theorem merged_lookup (ns : CliNamespace) (t : Option ConfigDict) (k : String) :
    dictLookup (mergedConfig ns t) k
      = ((dictLookup ns.toDict k).or (dictLookup (t.getD []) k)).or (dictLookup DEFAULTS k) := by
  rw [mergedConfig, dictLookup_applyDefaults,
    dictLookup_dictUpdate ns.toDict (t.getD []) k (toDict_keys_nodup ns)]

/-- A looked-up value of a well-typed dict matches its default's type. -/
theorem welltyped_lookup {d : ConfigDict} {k : String} {v : CVal}
    (hw : WellTyped d) (h : dictLookup d k = some v) :
    ∃ dv, dictLookup DEFAULTS k = some dv ∧ v.pyType = dv.pyType :=
  hw (k, v) (mem_of_dictLookup h)

/-- Every recognized key is present in the merged configuration, with a
value of the default's runtime type (assuming the TOML table passed the
input check). -/
theorem merged_lookup_welltyped (ns : CliNamespace) (t : Option ConfigDict)
    (ht : WellTyped (t.getD [])) (k : String) (dv : CVal)
    (hdv : dictLookup DEFAULTS k = some dv) :
    ∃ v, dictLookup (mergedConfig ns t) k = some v ∧ v.pyType = dv.pyType := by
  rw [merged_lookup]
  cases h1 : dictLookup ns.toDict k with
  | some v =>
    obtain ⟨dv', hdv', ht'⟩ := welltyped_lookup (toDict_welltyped ns) h1
    rw [hdv] at hdv'
    cases hdv'
    exact ⟨v, by simp [Option.or], ht'⟩
  | none =>
    cases h2 : dictLookup (t.getD []) k with
    | some v =>
      obtain ⟨dv', hdv', ht'⟩ := welltyped_lookup ht h2
      rw [hdv] at hdv'
      cases hdv'
      exact ⟨v, by simp [Option.or, hdv], ht'⟩
    | none => exact ⟨dv, by simp [Option.or, hdv], rfl⟩

/-- A key whose default is the empty list holds a list in the merged
configuration. -/
theorem merged_list_key (ns : CliNamespace) (t : Option ConfigDict)
    (ht : WellTyped (t.getD [])) (k : String)
    (hk : dictLookup DEFAULTS k = some (.vList [])) :
    ∃ es, dictLookup (mergedConfig ns t) k = some (.vList es) := by
  obtain ⟨v, hv, hty⟩ := merged_lookup_welltyped ns t ht k (.vList []) hk
  obtain ⟨xs, rfl⟩ := CVal.eq_vList_of_pyType hty
  exact ⟨xs, hv⟩

/-- The two live branches of the exclude defaulting, given that the
merged exclude value is a list. -/
theorem excludeStep_eq_of_list (fs : FileSystem) (c : ConfigDict) (es : List String)
    (he : dictLookup c "exclude" = some (.vList es)) :
    excludeStep fs c =
      if es.isEmpty then
        match find_gitignore fs (pathStrings (dictLookup c "paths")) with
        | some gp => .ok (dictSet c "exclude" (.vList (parse_gitignore_excludes fs gp)))
        | none => .ok c
      else .ok (dictSet c "exclude" (.vList (es.map fnmatch_to_regex))) := by
  unfold excludeStep
  rw [he]
  by_cases h : es.isEmpty <;> simp [CVal.isFalsy, h]

/-- The exclude step cannot fail when the exclude value is a list. -/
theorem excludeStep_isOk_of_list (fs : FileSystem) (c : ConfigDict) (es : List String)
    (he : dictLookup c "exclude" = some (.vList es)) :
    ∃ r, excludeStep fs c = .ok r := by
  rw [excludeStep_eq_of_list fs c es he]
  by_cases h : es.isEmpty
  · rw [if_pos h]
    cases find_gitignore fs (pathStrings (dictLookup c "paths")) <;> exact ⟨_, rfl⟩
  · rw [if_neg h]
    exact ⟨_, rfl⟩

/-- The exclude step only ever rewrites the `"exclude"` entry. -/
theorem excludeStep_ok_lookup_ne (fs : FileSystem) (c r : ConfigDict)
    (h : excludeStep fs c = .ok r) (k : String) (hk : k ≠ "exclude") :
    dictLookup r k = dictLookup c k := by
  unfold excludeStep at h
  split at h
  · exact absurd h (by simp)
  · split at h
    · split at h
      · simp only [Except.ok.injEq] at h
        subst h
        rw [dictLookup_dictSet]
        exact if_neg (fun hh => hk hh.symm)
      · simp only [Except.ok.injEq] at h
        subst h
        rfl
    · split at h
      · simp only [Except.ok.injEq] at h
        subst h
        rw [dictLookup_dictSet]
        exact if_neg (fun hh => hk hh.symm)
      · exact absurd h (by simp)

/-- After a successful exclude step the exclude value is still a list. -/
theorem excludeStep_ok_exclude (fs : FileSystem) (c r : ConfigDict) (es : List String)
    (he : dictLookup c "exclude" = some (.vList es))
    (h : excludeStep fs c = .ok r) :
    ∃ xs, dictLookup r "exclude" = some (.vList xs) := by
  rw [excludeStep_eq_of_list fs c es he] at h
  by_cases hes : es.isEmpty
  · rw [if_pos hes] at h
    cases hg : find_gitignore fs (pathStrings (dictLookup c "paths")) with
    | some gp =>
      rw [hg] at h
      simp only [Except.ok.injEq] at h
      subst h
      exact ⟨parse_gitignore_excludes fs gp, by rw [dictLookup_dictSet]; simp⟩
    | none =>
      rw [hg] at h
      simp only [Except.ok.injEq] at h
      subst h
      exact ⟨es, he⟩
  · rw [if_neg hes] at h
    simp only [Except.ok.injEq] at h
    subst h
    exact ⟨es.map fnmatch_to_regex, by rw [dictLookup_dictSet]; simp⟩

/-- The output check succeeds exactly for a non-empty paths list. -/
theorem check_output_ok_iff {c : ConfigDict} {xs : List String}
    (h : dictLookup c "paths" = some (.vList xs)) :
    check_output_config c = .ok () ↔ xs ≠ [] := by
  unfold check_output_config
  rw [h]
  by_cases he : xs = []
  · subst he; simp [CVal.isFalsy]
  · simp [CVal.isFalsy, List.isEmpty_iff, he]

/-- `bind` on a success just applies the continuation. -/
theorem bind_ok {A B : Type} (a : A) (f : A → Except ConfigError B) :
    (Except.ok a : Except ConfigError A).bind f = f a := rfl

/-- `make_config` after successful CLI and TOML parsing, written with the
merged configuration. -/
theorem make_config_eq (ns : CliNamespace) (t : Option ConfigDict) (fs : FileSystem)
    (hc : check_input_config (t.getD []) = .ok ()) :
    make_config ns t fs
      = (excludeStep fs (mergedConfig ns t)).bind
          (fun config => (check_output_config config).map (fun _ => config)) := by
  cases t with
  | none => simp [make_config, parse_args_ok, bind_ok, mergedConfig]
  | some tt =>
    simp only [Option.getD] at hc
    simp [make_config, parse_args_ok, parse_toml, hc, bind_ok, mergedConfig]

/-- A failing TOML check aborts `make_config` with that error. -/
theorem make_config_toml_error (ns : CliNamespace) (fs : FileSystem)
    (tt : ConfigDict) (e : ConfigError) (h : check_input_config tt = .error e) :
    make_config ns (some tt) fs = .error e := by
  simp [make_config, parse_args_ok, parse_toml, h, bind_ok, Except.bind]

/-- Anatomy of a successful `make_config` run. -/
theorem make_config_ok_elim (ns : CliNamespace) (t : Option ConfigDict)
    (fs : FileSystem) (c : ConfigDict) (h : make_config ns t fs = .ok c) :
    check_input_config (t.getD []) = .ok ()
    ∧ excludeStep fs (mergedConfig ns t) = .ok c
    ∧ check_output_config c = .ok () := by
  have hc : check_input_config (t.getD []) = .ok () := by
    cases t with
    | none => rfl
    | some tt =>
      cases hcc : check_input_config tt with
      | error e =>
        rw [make_config_toml_error ns fs tt e hcc] at h
        exact absurd h (by simp)
      | ok u => cases u; exact hcc
  refine ⟨hc, ?_⟩
  rw [make_config_eq ns t fs hc] at h
  cases hstep : excludeStep fs (mergedConfig ns t) with
  | error e => rw [hstep] at h; exact absurd h (by simp [Except.bind])
  | ok r =>
    rw [hstep] at h
    simp only [bind_ok] at h
    cases hout : check_output_config r with
    | error e => rw [hout] at h; exact absurd h (by simp [Except.map])
    | ok u =>
      cases u
      rw [hout] at h
      simp only [Except.map, Except.ok.injEq] at h
      subst h
      exact ⟨rfl, hout⟩

/-- Reassembling a successful `make_config` run. -/
theorem make_config_intro (ns : CliNamespace) (t : Option ConfigDict)
    (fs : FileSystem) (c : ConfigDict)
    (hc : check_input_config (t.getD []) = .ok ())
    (hstep : excludeStep fs (mergedConfig ns t) = .ok c)
    (hout : check_output_config c = .ok ()) :
    make_config ns t fs = .ok c := by
  rw [make_config_eq ns t fs hc, hstep]
  simp [bind_ok, hout, Except.map]

/-- The ancestors of a path are its proper prefixes. -/
theorem mem_parentsOf {p q : FPath} :
    p ∈ parentsOf q ↔ ∃ n, n < q.length ∧ q.take n = p := by
  simp [parentsOf, List.mem_map, List.mem_reverse, List.mem_range]

/-- An ancestor is a prefix. -/
theorem prefix_of_mem_parentsOf {p q : FPath} (h : p ∈ parentsOf q) : p <+: q := by
  obtain ⟨n, _, rfl⟩ := mem_parentsOf.mp h
  exact List.take_prefix n q

/-- A candidate from `pathParents` is a prefix of the path. -/
theorem prefix_of_mem_pathParents {fs : FileSystem} {p q : FPath}
    (h : p ∈ pathParents fs q) : p <+: q := by
  rcases List.mem_append.mp h with h1 | h2
  · exact prefix_of_mem_parentsOf h1
  · by_cases hd : fs.isDir q
    · simp [hd] at h2
      subst h2
      exact List.prefix_refl _
    · simp [hd] at h2

/-- Membership in `pathParents` matches the common-ancestor predicate for
a single path. -/
theorem mem_pathParents_iff {fs : FileSystem} {p q : FPath} :
    p ∈ pathParents fs q ↔ (p ∈ parentsOf q ∨ (p = q ∧ fs.isDir q = true)) := by
  cases hd : fs.isDir q <;> simp [pathParents, hd]

/-- The `decide`d form of `mem_pathParents_iff`, for rewriting inside
`List.all`. -/
theorem mem_pathParents_decide (fs : FileSystem) (r p : FPath) :
    (decide (p ∈ pathParents fs r))
      = (decide (p ∈ parentsOf r) || (decide (p = r) && fs.isDir r)) := by
  cases hd : fs.isDir r <;> simp [mem_pathParents_iff, hd]

/-- On two prefixes of a common path, the tuple order of `parts` is the
length order: one prefix extends the other. -/
theorem partsLt_eq_length_lt {P : FPath} :
    ∀ {a b : FPath}, a <+: P → b <+: P →
      partsLt a b = decide (a.length < b.length) := by
  induction P with
  | nil =>
    intro a b ha hb
    rw [List.prefix_nil] at ha hb
    subst ha; subst hb
    rfl
  | cons x P ih =>
    intro a b ha hb
    match a, b with
    | [], [] => rfl
    | [], b0 :: bs => simp [partsLt]
    | a0 :: as, [] => simp [partsLt]
    | a0 :: as, b0 :: bs =>
      obtain ⟨ha0, has⟩ := List.cons_prefix_cons.mp ha
      obtain ⟨hb0, hbs⟩ := List.cons_prefix_cons.mp hb
      subst ha0; subst hb0
      show (if b0 = b0 then partsLt as bs else decide (b0 < b0))
        = decide ((b0 :: as).length < (b0 :: bs).length)
      rw [if_pos rfl, ih has hbs, decide_eq_decide]
      simp only [List.length_cons]
      omega

/-- On a set of prefixes of a common path, the fold picking the
`parts`-maximum picks the length-maximum. -/
theorem foldParts_eq_foldLen {P : FPath} :
    ∀ (l : List FPath) (acc : FPath), (∀ a ∈ l, a <+: P) → acc <+: P →
      l.foldl (fun acc p => if partsLt acc p then p else acc) acc
        = l.foldl (fun acc p => if acc.length < p.length then p else acc) acc := by
  intro l
  induction l with
  | nil => intros; rfl
  | cons h t ih =>
    intro acc hl hacc
    have hh : h <+: P := hl h (List.mem_cons_self _ _)
    have hrest : ∀ a ∈ t, a <+: P := fun a ha => hl a (List.mem_cons_of_mem _ ha)
    simp only [List.foldl_cons, partsLt_eq_length_lt hacc hh, decide_eq_true_eq]
    by_cases hlt : acc.length < h.length
    · simp only [if_pos hlt]
      exact ih h hrest hh
    · simp only [if_neg hlt]
      exact ih acc hrest hacc

/-- On a set of prefixes of a common path, the `parts`-maximum is the
length-maximum. -/
theorem maxByParts_eq_maxByLen {P : FPath} {l : List FPath}
    (h : ∀ a ∈ l, a <+: P) : maxByParts l = maxByLen l := by
  cases l with
  | nil => rfl
  | cons x xs =>
    simp only [maxByParts, maxByLen]
    rw [foldParts_eq_foldLen xs x
      (fun a ha => h a (List.mem_cons_of_mem _ ha)) (h x (List.mem_cons_self _ _))]

/-- `all` over a mapped list, for maps that change the element type. -/
theorem list_all_map {A B : Type} (l : List A) (f : A → B) (p : B → Bool) :
    (l.map f).all p = l.all (fun a => p (f a)) := by
  induction l with
  | nil => rfl
  | cons x xs ih => simp [ih]

/-- The length-max fold keeps an accumulator strictly longer than every
list element. -/
theorem foldMaxLen_keep (xs : List FPath) (acc : FPath)
    (h : ∀ a ∈ xs, a.length < acc.length) :
    xs.foldl (fun acc p => if acc.length < p.length then p else acc) acc = acc := by
  induction xs generalizing acc with
  | nil => rfl
  | cons y ys ih =>
    simp only [List.foldl_cons]
    rw [if_neg (Nat.not_lt.mpr (Nat.le_of_lt (h y (List.mem_cons_self _ _))))]
    exact ih acc (fun a ha => h a (List.mem_cons_of_mem _ ha))

/-- The ancestor-or-self chain of a path as one mapped range. -/
theorem chain_eq (base : FPath) :
    base :: parentsOf base
      = (List.range (base.length + 1)).reverse.map (fun n => base.take n) := by
  simp [parentsOf, List.range_succ, List.reverse_append, List.take_length]

/-- The nearest-first ancestor-or-self chain is strictly decreasing in
length. -/
theorem chain_sorted (base : FPath) :
    (base :: parentsOf base).Pairwise (fun a b => b.length < a.length) := by
  rw [chain_eq, List.pairwise_map, List.pairwise_reverse]
  apply List.Pairwise.imp_of_mem ?_ (List.pairwise_lt_range (base.length + 1))
  intro a b ha hb hab
  rw [List.mem_range] at ha hb
  rw [List.length_take, List.length_take]
  rw [min_eq_left (by omega), min_eq_left (by omega)]
  exact hab

/-- On a list strictly decreasing in length, the first hit of a filter
is its longest hit: nearest-first search finds the closest match. -/
theorem findSome_eq_maxByLen_of_sorted (p : FPath → Bool) (g : FPath → FPath) :
    ∀ l : List FPath, l.Pairwise (fun a b => b.length < a.length) →
      l.findSome? (fun x => if p x then some (g x) else none)
        = (maxByLen (l.filter p)).map g := by
  intro l
  induction l with
  | nil => intro _; rfl
  | cons x xs ih =>
    intro hsort
    rw [List.pairwise_cons] at hsort
    obtain ⟨hx, hxs⟩ := hsort
    rw [List.findSome?_cons, List.filter_cons]
    by_cases hp : p x
    · have hkeep : (xs.filter p).foldl
          (fun acc q => if acc.length < q.length then q else acc) x = x :=
        foldMaxLen_keep _ _ (fun a ha => hx a (List.mem_filter.mp ha).1)
      simp [hp, maxByLen, hkeep]
    · simp only [hp, Bool.false_eq_true, if_false]
      exact ih hxs

/-- The source's nearest-first gitignore walk over the ancestor-or-self
chain of the base returns the `.gitignore` of the closest (deepest)
gitignore-bearing directory. -/
theorem findSome_chain_eq (fs : FileSystem) (base : FPath) :
    (base :: parentsOf base).findSome? (fun dir =>
      if fs.isFile (dir ++ [".gitignore"]) then some (dir ++ [".gitignore"])
      else none)
    = (maxByLen ((base :: parentsOf base).filter
        (fun dir => fs.isFile (dir ++ [".gitignore"])))).map
        (fun dir => dir ++ [".gitignore"]) :=
  findSome_eq_maxByLen_of_sorted (fun dir => fs.isFile (dir ++ [".gitignore"]))
    (fun dir => dir ++ [".gitignore"]) (base :: parentsOf base) (chain_sorted base)

/-- The source's `find_gitignore` computes exactly what the claim says:
the `.gitignore` of the closest directory at or above the deepest
(longest) common ancestor of the given paths. -/
theorem find_gitignore_eq_spec (fs : FileSystem) (paths : List String) :
    find_gitignore fs paths = spec_find_gitignore fs paths := by
  unfold find_gitignore spec_find_gitignore
  cases hp : paths.isEmpty
  · obtain ⟨q, qs, hq⟩ :
        ∃ q qs, paths.map fs.resolve = q :: qs := by
      cases paths with
      | nil => simp at hp
      | cons a l => exact ⟨fs.resolve a, l.map fs.resolve, rfl⟩
    have hfilter : intersectAll ((q :: qs).map (pathParents fs))
        = (pathParents fs q).filter (isCommonAncestor fs (q :: qs)) := by
      simp only [List.map_cons, intersectAll]
      apply List.filter_congr
      intro p hp2
      have hhead : (decide (p ∈ parentsOf q) || (decide (p = q) && fs.isDir q)) = true := by
        rcases mem_pathParents_iff.mp hp2 with h1 | ⟨h1, h2⟩
        · simp [h1]
        · simp [h1, h2]
      simp only [isCommonAncestor, List.all_cons, list_all_map,
        mem_pathParents_decide, hhead, Bool.true_and]
    have hpref : ∀ a ∈ (pathParents fs q).filter (isCommonAncestor fs (q :: qs)),
        a <+: q := by
      intro a ha
      exact prefix_of_mem_pathParents (List.mem_filter.mp ha).1
    simp only [hp, Bool.false_eq_true, if_false, hq]
    rw [hfilter, maxByParts_eq_maxByLen hpref]
    cases maxByLen ((pathParents fs q).filter (isCommonAncestor fs (q :: qs))) with
    | none => rfl
    | some base => exact findSome_chain_eq fs base
  · have hfilter : intersectAll ([fs.cwd].map (pathParents fs))
        = (pathParents fs fs.cwd).filter (isCommonAncestor fs [fs.cwd]) := by
      simp only [List.map_cons, List.map_nil, intersectAll]
      apply List.filter_congr
      intro p hp2
      simp only [isCommonAncestor, List.all_cons, List.all_nil, Bool.and_true]
      rcases mem_pathParents_iff.mp hp2 with h1 | ⟨h1, h2⟩
      · simp [h1]
      · simp [h1, h2]
    have hpref : ∀ a ∈ (pathParents fs fs.cwd).filter (isCommonAncestor fs [fs.cwd]),
        a <+: fs.cwd := by
      intro a ha
      exact prefix_of_mem_pathParents (List.mem_filter.mp ha).1
    simp only [hp, if_true]
    rw [hfilter, maxByParts_eq_maxByLen hpref]
    cases maxByLen ((pathParents fs fs.cwd).filter (isCommonAncestor fs [fs.cwd])) with
    | none => rfl
    | some base => exact findSome_chain_eq fs base

/-- Lookup distributes over dict concatenation. -/
theorem dictLookup_append (a b : ConfigDict) (k : String) :
    dictLookup (a ++ b) k = (dictLookup a k).or (dictLookup b k) := by
  induction a with
  | nil => simp [dictLookup]
  | cons kv rest ih =>
    obtain ⟨k0, v0⟩ := kv
    by_cases h : k0 = k <;> simp [dictLookup, h, ih]

/-- Lookup in a single optional CLI entry. -/
theorem dictLookup_optEntry (k' : String) (v : Option CVal) (k : String) :
    dictLookup (optEntry k' v) k = if k' = k then v else none := by
  cases v with
  | none => simp [optEntry, dictLookup]
  | some x => by_cases h : k' = k <;> simp [optEntry, dictLookup, h]

/-- The CLI dict holds exactly the namespace's min_confidence. -/
theorem toDict_lookup_min_confidence (ns : CliNamespace) :
    dictLookup ns.toDict "min_confidence" = ns.min_confidence.map .vInt := by
  simp [CliNamespace.toDict, dictLookup_append, dictLookup_optEntry]

/-- A key outside the eight recognized options is absent from `DEFAULTS`. -/
theorem dictLookup_DEFAULTS_eq_none_of_not_mem (k : String)
    (hk : k ∉ (["min_confidence", "paths", "exclude", "ignore_decorators",
                "ignore_names", "make_whitelist", "sort_by_size", "verbose"] : List String)) :
    dictLookup DEFAULTS k = none := by
  simp only [List.mem_cons, List.not_mem_nil, or_false, not_or] at hk
  obtain ⟨h1, h2, h3, h4, h5, h6, h7, h8⟩ := hk
  simp [DEFAULTS, dictLookup, Ne.symm h1, Ne.symm h2, Ne.symm h3, Ne.symm h4,
    Ne.symm h5, Ne.symm h6, Ne.symm h7, Ne.symm h8]

/-- With a list-valued paths entry, the output check either passes or
raises the missing-paths `InputError`. -/
theorem check_output_cases {c : ConfigDict} {xs : List String}
    (h : dictLookup c "paths" = some (.vList xs)) :
    check_output_config c = .ok () ∨ check_output_config c = .error .missingPaths := by
  have hco : check_output_config c
      = if (CVal.vList xs).isFalsy then .error .missingPaths else .ok () := by
    unfold check_output_config
    rw [h]
  rw [hco]
  by_cases hxe : (CVal.vList xs).isFalsy
  · exact Or.inr (if_pos hxe)
  · exact Or.inl (if_neg hxe)

/-- C1: a configuration mapping with an unrecognized key makes
`_check_input_config` raise `InputError`, so `_parse_toml` and
`make_config` abort without producing a config (`_parse_args` can only
hand over recognized keys); a mapping whose keys are all recognized
never triggers the unknown-key error. -/
theorem claim_C1 (data : ConfigDict) (ns : CliNamespace) (fs : FileSystem) :
    ((∃ kv ∈ data, dictLookup DEFAULTS kv.1 = none) →
      isError (check_input_config data) = true
      ∧ isError (parse_toml data) = true
      ∧ isError (make_config ns (some data) fs) = true)
    ∧ ((∀ kv ∈ data, (dictLookup DEFAULTS kv.1).isSome = true) →
      ∀ k, check_input_config data ≠ .error (.unknownKey k)) := by
  constructor
  · intro h
    have h1 := check_input_error_of_unknown h
    obtain ⟨e, he⟩ : ∃ e, check_input_config data = .error e := by
      cases hc : check_input_config data with
      | error e => exact ⟨e, rfl⟩
      | ok u => rw [hc] at h1; simp [isError] at h1
    refine ⟨h1, ?_, ?_⟩
    · simp [parse_toml, he, isError]
    · rw [make_config_toml_error ns fs data e he]
      rfl
  · exact fun h => check_input_not_unknownKey h

/-- C1 witness at the concrete unknown key of the unit tests. -/
theorem claim_C1_witness :
    isError (check_input_config [("unknown_key_1", CVal.vInt 1)]) = true
    ∧ isError (make_config {} (some [("unknown_key_1", CVal.vInt 1)]) sampleFs) = true := by
  have h := (claim_C1 [("unknown_key_1", CVal.vInt 1)] {} sampleFs).1
    ⟨("unknown_key_1", CVal.vInt 1), by decide, by decide⟩
  exact ⟨h.1, h.2.2⟩

/-- C2: on a recognized key, a value of the wrong runtime type makes
`_check_input_config` raise `InputError`; a value of the default's type
passes. -/
theorem claim_C2 (k : String) (v d : CVal) (hd : dictLookup DEFAULTS k = some d) :
    (v.pyType ≠ d.pyType →
      check_input_config [(k, v)] = .error (.wrongType k d.pyType))
    ∧ (v.pyType = d.pyType → check_input_config [(k, v)] = .ok ()) := by
  constructor <;> intro ht <;> simp [check_input_config, hd, ht]

/-- C2 witness: a string min_confidence is rejected, an int one passes. -/
theorem claim_C2_witness :
    check_input_config [("min_confidence", CVal.vStr "10")]
      = .error (.wrongType "min_confidence" PyType.pInt)
    ∧ check_input_config [("min_confidence", CVal.vInt 10)] = .ok () :=
  ⟨(claim_C2 "min_confidence" (.vStr "10") (.vInt 0) (by decide)).1 (by decide),
   (claim_C2 "min_confidence" (.vInt 10) (.vInt 0) (by decide)).2 rfl⟩

/-- C3: when the merged configuration's paths list is empty,
`make_config` raises `InputError`; a returned config always carries a
non-empty paths list. -/
theorem claim_C3 (ns : CliNamespace) (t : Option ConfigDict) (fs : FileSystem) :
    (dictLookup (mergedConfig ns t) "paths" = some (.vList []) →
      ∃ e, make_config ns t fs = .error e ∧ e.isInputError = true)
    ∧ (∀ c, make_config ns t fs = .ok c →
      ∃ xs, dictLookup c "paths" = some (.vList xs) ∧ xs ≠ []) := by
  constructor
  · intro hpaths
    cases hc : check_input_config (t.getD []) with
    | error e =>
      cases t with
      | none => exact absurd hc (by simp [check_input_config])
      | some tt =>
        exact ⟨e, make_config_toml_error ns fs tt e hc, check_input_error_isInputError hc⟩
    | ok u =>
      cases u
      have ht : WellTyped (t.getD []) := (check_input_ok_iff _).mp hc
      obtain ⟨es, hex⟩ := merged_list_key ns t ht "exclude" (by decide)
      obtain ⟨r, hr⟩ := excludeStep_isOk_of_list fs (mergedConfig ns t) es hex
      have hpr : dictLookup r "paths" = some (.vList []) := by
        rw [excludeStep_ok_lookup_ne fs _ r hr "paths" (by decide), hpaths]
      have hout : check_output_config r = .error .missingPaths := by
        unfold check_output_config
        rw [hpr]
        rfl
      refine ⟨.missingPaths, ?_, rfl⟩
      rw [make_config_eq ns t fs hc, hr]
      simp [bind_ok, hout, Except.map]
  · intro c hok
    obtain ⟨hc, hstep, hout⟩ := make_config_ok_elim ns t fs c hok
    have ht : WellTyped (t.getD []) := (check_input_ok_iff _).mp hc
    obtain ⟨xs, hx⟩ := merged_list_key ns t ht "paths" (by decide)
    have hcx : dictLookup c "paths" = some (.vList xs) := by
      rw [excludeStep_ok_lookup_ne fs _ c hstep "paths" (by decide), hx]
    exact ⟨xs, hcx, (check_output_ok_iff hcx).mp hout⟩

/-- C3 witness: a run with no paths anywhere aborts with `InputError`. -/
theorem claim_C3_witness :
    ∃ e, make_config {} (some []) sampleFs = .error e ∧ e.isInputError = true :=
  (claim_C3 {} (some []) sampleFs).1 (by decide)

/-- C4 counterexample: min_confidence is not range-checked — both the
input check and `make_config` accept 200 (and -5), although 200 lies
outside 0..100. -/
theorem claim_C4_counterexample :
    check_input_config [("min_confidence", CVal.vInt 200)] = .ok ()
    ∧ check_input_config [("min_confidence", CVal.vInt (-5))] = .ok ()
    ∧ (make_config { paths := some ["p"], min_confidence := some 200 }
        (some []) sampleFs).toOption.bind (fun c => dictLookup c "min_confidence")
      = some (CVal.vInt 200)
    ∧ ¬((200 : Int) ≤ 100) :=
  ⟨rfl, rfl, rfl, by decide⟩

/-- C4 amended: the configuration layer checks only the runtime type of
min_confidence, not its range — every int passes the check, and
`make_config` returns any CLI-given int threshold unchanged. -/
theorem claim_C4_amended (n : Int) (ns : CliNamespace) (t : Option ConfigDict)
    (fs : FileSystem) (c : ConfigDict) :
    check_input_config [("min_confidence", .vInt n)] = .ok ()
    ∧ (ns.min_confidence = some n → make_config ns t fs = .ok c →
        dictLookup c "min_confidence" = some (.vInt n)) := by
  constructor
  · rfl
  · intro hn hok
    obtain ⟨hc, hstep, hout⟩ := make_config_ok_elim ns t fs c hok
    rw [excludeStep_ok_lookup_ne fs _ c hstep "min_confidence" (by decide),
      merged_lookup, toDict_lookup_min_confidence, hn]
    rfl

/-- C4 amended witness: the out-of-range threshold 200 flows through. -/
theorem claim_C4_amended_witness :
    dictLookup c4run "min_confidence" = some (CVal.vInt 200) :=
  (claim_C4_amended 200 { paths := some ["p"], min_confidence := some 200 }
    (some []) sampleFs c4run).2 rfl rfl

/-- C5 counterexample: the validator accepts "paths", which lies outside
the claimed six-option set. -/
theorem claim_C5_counterexample :
    "paths" ∉ (["min_confidence", "ignore_names", "ignore_decorators",
                "sort_by_size", "make_whitelist", "verbose"] : List String)
    ∧ check_input_config [("paths", CVal.vList [])] = .ok () :=
  ⟨by decide, rfl⟩

/-- C5 amended: the recognized option set is exactly the eight keys of
`DEFAULTS` — the claimed six plus paths and exclude: every recognized key
passes the validator (with a well-typed value), every other key is
rejected as unknown. -/
theorem claim_C5_amended (k : String) (v : CVal) :
    ((dictLookup DEFAULTS k).isSome = true ↔
      k ∈ (["min_confidence", "paths", "exclude", "ignore_decorators",
            "ignore_names", "make_whitelist", "sort_by_size", "verbose"] : List String))
    ∧ (k ∉ (["min_confidence", "paths", "exclude", "ignore_decorators",
             "ignore_names", "make_whitelist", "sort_by_size", "verbose"] : List String) →
      check_input_config [(k, v)] = .error (.unknownKey k))
    ∧ (∀ d, dictLookup DEFAULTS k = some d → check_input_config [(k, d)] = .ok ()) := by
  refine ⟨⟨fun h => ?_, fun h => ?_⟩, fun hk => ?_, fun d hd => ?_⟩
  · by_contra hk
    rw [dictLookup_DEFAULTS_eq_none_of_not_mem k hk] at h
    simp at h
  · simp only [List.mem_cons, List.not_mem_nil, or_false] at h
    rcases h with rfl | rfl | rfl | rfl | rfl | rfl | rfl | rfl <;> decide
  · simp [check_input_config, dictLookup_DEFAULTS_eq_none_of_not_mem k hk]
  · simp [check_input_config, hd]

/-- C5 amended witness: an unknown key is rejected, a recognized one
outside the claimed six passes. -/
theorem claim_C5_amended_witness :
    check_input_config [("bogus_key", CVal.vInt 3)] = .error (.unknownKey "bogus_key")
    ∧ check_input_config [("paths", CVal.vList [])] = .ok () :=
  ⟨(claim_C5_amended "bogus_key" (CVal.vInt 3)).2.1 (by decide),
   (claim_C5_amended "paths" (CVal.vList [])).2.2 (CVal.vList []) (by decide)⟩

/-- C6 counterexample: with no exclude given anywhere but a gitignore
present, the returned exclude is the gitignore regexes, not the
documented default `[]`. -/
theorem claim_C6_counterexample :
    dictLookup (dictUpdate ([] : ConfigDict)
      (CliNamespace.toDict { paths := some ["p"] })) "exclude" = none
    ∧ dictLookup DEFAULTS "exclude" = some (CVal.vList [])
    ∧ (make_config { paths := some ["p"] } (some []) sampleFs).toOption.bind
        (fun c => dictLookup c "exclude") = some (CVal.vList ["giA", "giB"])
    ∧ CVal.vList ["giA", "giB"] ≠ CVal.vList [] :=
  ⟨rfl, rfl, rfl, by decide⟩

/-- C6 amended: for every option other than exclude, when neither the
CLI nor the TOML table provides a value, the returned config holds that
option's `DEFAULTS` value (exclude is first defaulted to `[]` and may
then be filled from a gitignore); in particular min_confidence defaults
to 0. -/
theorem claim_C6_amended (ns : CliNamespace) (t : Option ConfigDict)
    (fs : FileSystem) (c : ConfigDict) (k : String) (d : CVal)
    (hok : make_config ns t fs = .ok c)
    (hd : dictLookup DEFAULTS k = some d)
    (hcli : dictLookup ns.toDict k = none)
    (htoml : dictLookup (t.getD []) k = none)
    (hk : k ≠ "exclude") :
    dictLookup c k = some d := by
  obtain ⟨hc, hstep, hout⟩ := make_config_ok_elim ns t fs c hok
  rw [excludeStep_ok_lookup_ne fs _ c hstep k hk, merged_lookup, hcli, htoml, hd]
  rfl

/-- C6 amended witness: min_confidence is 0 when no threshold is given. -/
theorem claim_C6_amended_witness :
    dictLookup sampleRun "min_confidence" = some (CVal.vInt 0) :=
  claim_C6_amended { paths := some ["p"] } (some []) sampleFs sampleRun
    "min_confidence" (CVal.vInt 0) rfl rfl rfl rfl (by decide)

/-- C7: `make_config` either raises an `InputError` or returns a fully
validated config: all eight `DEFAULTS` keys present with values of the
default's runtime type, and a non-empty paths list. -/
theorem claim_C7 (ns : CliNamespace) (t : Option ConfigDict) (fs : FileSystem) :
    (∀ c, make_config ns t fs = .ok c →
      (∀ k d, dictLookup DEFAULTS k = some d →
        ∃ v, dictLookup c k = some v ∧ v.pyType = d.pyType)
      ∧ (∃ xs, dictLookup c "paths" = some (.vList xs) ∧ xs ≠ []))
    ∧ (∀ e, make_config ns t fs = .error e → e.isInputError = true) := by
  constructor
  · intro c hok
    obtain ⟨hc, hstep, hout⟩ := make_config_ok_elim ns t fs c hok
    have ht : WellTyped (t.getD []) := (check_input_ok_iff _).mp hc
    constructor
    · intro k d hd
      by_cases hk : k = "exclude"
      · subst hk
        obtain ⟨es, hex⟩ := merged_list_key ns t ht "exclude" (by decide)
        obtain ⟨xs, hxs⟩ := excludeStep_ok_exclude fs _ c es hex hstep
        refine ⟨.vList xs, hxs, ?_⟩
        have hdd : dictLookup DEFAULTS "exclude" = some (CVal.vList []) := rfl
        rw [hdd] at hd
        cases hd
        rfl
      · obtain ⟨v, hv, hty⟩ := merged_lookup_welltyped ns t ht k d hd
        exact ⟨v, by rw [excludeStep_ok_lookup_ne fs _ c hstep k hk, hv], hty⟩
    · obtain ⟨xs, hx⟩ := merged_list_key ns t ht "paths" (by decide)
      have hcx : dictLookup c "paths" = some (.vList xs) := by
        rw [excludeStep_ok_lookup_ne fs _ c hstep "paths" (by decide), hx]
      exact ⟨xs, hcx, (check_output_ok_iff hcx).mp hout⟩
  · intro e herr
    cases hc : check_input_config (t.getD []) with
    | error e2 =>
      cases t with
      | none => exact absurd hc (by simp [check_input_config])
      | some tt =>
        rw [make_config_toml_error ns fs tt e2 hc] at herr
        simp only [Except.error.injEq] at herr
        subst herr
        exact check_input_error_isInputError hc
    | ok u =>
      cases u
      have ht : WellTyped (t.getD []) := (check_input_ok_iff _).mp hc
      obtain ⟨es, hex⟩ := merged_list_key ns t ht "exclude" (by decide)
      obtain ⟨r, hr⟩ := excludeStep_isOk_of_list fs _ es hex
      rw [make_config_eq ns t fs hc, hr] at herr
      simp only [bind_ok] at herr
      obtain ⟨xs, hx⟩ := merged_list_key ns t ht "paths" (by decide)
      have hrx : dictLookup r "paths" = some (.vList xs) := by
        rw [excludeStep_ok_lookup_ne fs _ r hr "paths" (by decide), hx]
      rcases check_output_cases hrx with hco | hco <;> rw [hco] at herr
      · exact absurd herr (by simp [Except.map])
      · simp only [Except.map, Except.error.injEq] at herr
        subst herr
        rfl

/-- C7 witness at a concrete successful run. -/
theorem claim_C7_witness :
    (∃ v, dictLookup sampleRun "verbose" = some v ∧ v.pyType = PyType.pBool)
    ∧ (∃ xs, dictLookup sampleRun "paths" = some (CVal.vList xs) ∧ xs ≠ []) := by
  have h := (claim_C7 { paths := some ["p"] } (some []) sampleFs).1 sampleRun rfl
  exact ⟨h.1 "verbose" (CVal.vBool false) rfl, h.2⟩

/-- C8: CLI options take precedence over TOML options in the merge, a
TOML option missing from the CLI keeps its TOML value (missing-sentinel
options are dropped before the merge and overwrite nothing), and every
non-exclude entry of a returned config is the CLI-then-TOML-then-default
choice. -/
theorem claim_C8 (ns : CliNamespace) (t : ConfigDict) (fs : FileSystem) :
    (∀ k, dictLookup (dictUpdate t ns.toDict) k
        = (dictLookup ns.toDict k).or (dictLookup t k))
    ∧ (∀ c k, make_config ns (some t) fs = .ok c → k ≠ "exclude" →
        dictLookup c k = ((dictLookup ns.toDict k).or (dictLookup t k)).or
          (dictLookup DEFAULTS k)) := by
  constructor
  · exact fun k => dictLookup_dictUpdate ns.toDict t k (toDict_keys_nodup ns)
  · intro c k hok hk
    obtain ⟨hc, hstep, hout⟩ := make_config_ok_elim ns (some t) fs c hok
    rw [excludeStep_ok_lookup_ne fs _ c hstep k hk, merged_lookup]
    rfl

/-- C8 witness: CLI 20 beats TOML 10 for min_confidence, while the
TOML-only verbose=true survives. -/
theorem claim_C8_witness :
    dictLookup mergeRun "min_confidence" = some (CVal.vInt 20)
    ∧ dictLookup mergeRun "verbose" = some (CVal.vBool true) := by
  have h := (claim_C8 { paths := some ["cli_path"], min_confidence := some 20 }
    [("min_confidence", CVal.vInt 10), ("verbose", CVal.vBool true)] sampleFs).2
  exact ⟨(h mergeRun "min_confidence" rfl (by decide)).trans rfl,
         (h mergeRun "verbose" rfl (by decide)).trans rfl⟩

/-- C9: with an empty merged exclude list, `make_config` fills exclude
with the deduplicated pattern regexes of the gitignore `find_gitignore`
returns (leaving exclude empty when there is none); an explicitly given
exclude is translated with `fnmatch_to_regex` and the filesystem is
never consulted; and `find_gitignore` returns the `.gitignore` of the
closest directory at or above the deepest common ancestor of the paths. -/
theorem claim_C9 (ns : CliNamespace) (t : Option ConfigDict) (fs : FileSystem)
    (c : ConfigDict) (hok : make_config ns t fs = .ok c) :
    (dictLookup (mergedConfig ns t) "exclude" = some (.vList []) →
      (∀ gp, find_gitignore fs
          (pathStrings (dictLookup (mergedConfig ns t) "paths")) = some gp →
        dictLookup c "exclude" = some (.vList ((fs.gitignoreRegexes gp).dedup)))
      ∧ (find_gitignore fs
          (pathStrings (dictLookup (mergedConfig ns t) "paths")) = none →
        dictLookup c "exclude" = some (.vList [])))
    ∧ (∀ es, dictLookup (mergedConfig ns t) "exclude" = some (.vList es) → es ≠ [] →
        dictLookup c "exclude" = some (.vList (es.map fnmatch_to_regex))
        ∧ ∀ fs2, make_config ns t fs2 = .ok c)
    ∧ (∀ ps, find_gitignore fs ps = spec_find_gitignore fs ps) := by
  obtain ⟨hc, hstep, hout⟩ := make_config_ok_elim ns t fs c hok
  refine ⟨?_, ?_, fun ps => find_gitignore_eq_spec fs ps⟩
  · intro hme
    rw [excludeStep_eq_of_list fs (mergedConfig ns t) [] hme,
      if_pos (show ([] : List String).isEmpty = true from rfl)] at hstep
    constructor
    · intro gp hg
      rw [hg] at hstep
      simp only [Except.ok.injEq] at hstep
      subst hstep
      rw [dictLookup_dictSet]
      simp [parse_gitignore_excludes]
    · intro hg
      rw [hg] at hstep
      simp only [Except.ok.injEq] at hstep
      subst hstep
      exact hme
  · intro es hme hne
    rw [excludeStep_eq_of_list fs (mergedConfig ns t) es hme,
      if_neg (by simpa [List.isEmpty_iff] using hne)] at hstep
    simp only [Except.ok.injEq] at hstep
    subst hstep
    constructor
    · rw [dictLookup_dictSet]
      simp
    · intro fs2
      refine make_config_intro ns t fs2 _ hc ?_ hout
      rw [excludeStep_eq_of_list fs2 (mergedConfig ns t) es hme,
        if_neg (by simpa [List.isEmpty_iff] using hne)]

/-- C9 witness: the sample gitignore's regexes are deduplicated into the
returned exclude list. -/
theorem claim_C9_witness :
    dictLookup sampleRun "exclude" = some (CVal.vList ["giA", "giB"]) := by
  have h := claim_C9 { paths := some ["p"] } (some []) sampleFs sampleRun rfl
  exact ((h.1 rfl).1 ["repo", ".gitignore"] rfl).trans rfl

/-- C10: the type check separates bool from int — a bool min_confidence
is rejected, and an int for any of the three boolean options is
rejected. -/
theorem claim_C10 (b : Bool) (n : Int) (k : String) :
    check_input_config [("min_confidence", .vBool b)]
      = .error (.wrongType "min_confidence" PyType.pInt)
    ∧ (k ∈ (["make_whitelist", "sort_by_size", "verbose"] : List String) →
      check_input_config [(k, .vInt n)] = .error (.wrongType k PyType.pBool)) := by
  constructor
  · rfl
  · intro hk
    simp only [List.mem_cons, List.not_mem_nil, or_false] at hk
    rcases hk with rfl | rfl | rfl <;> rfl

/-- C10 witness: `True` for min_confidence and `1` for make_whitelist
are both rejected. -/
theorem claim_C10_witness :
    check_input_config [("min_confidence", CVal.vBool true)]
      = .error (.wrongType "min_confidence" PyType.pInt)
    ∧ check_input_config [("make_whitelist", CVal.vInt 1)]
      = .error (.wrongType "make_whitelist" PyType.pBool) :=
  ⟨(claim_C10 true 1 "make_whitelist").1,
   (claim_C10 true 1 "make_whitelist").2 (by decide)⟩

end VultureConfig
